import Mathlib

/-!
Verification of the Myria plan utilities (`myria/plans.py`): the JSON-backed
plan / fragment / operator views and the parallel-import plan builder.

Documents are modelled shallowly as `JValue` trees (Python dicts become
association lists in insertion order, which is faithful to how the builder
constructs them).  The builder's shared mutable id counter (`taskid`, a
one-element Python list) becomes an explicitly threaded `Int` state.
-/

/-- JSON-like values backing plan documents: Python ints, strings, booleans,
lists and dicts. -/
inductive JValue : Type where
  | int  (n : Int)
  | str  (s : String)
  | bool (b : Bool)
  | arr  (xs : List JValue)
  | obj  (fields : List (String × JValue))

/-- Python dict lookup (first matching key; property mappings are modelled as
association lists in insertion order). -/
def lookupKey (d : List (String × JValue)) (k : String) : Option JValue :=
  match d.find? (fun kv => kv.1 == k) with
  | some kv => some kv.2
  | none => none

/-- Python `d.update(p)`: every key of `p` is written into `d`, replacing the
value of a key already present (keeping its position) and appending keys that
are new, in order. -/
def dictUpdate (d p : List (String × JValue)) : List (String × JValue) :=
  d.map (fun kv => (kv.1, (lookupKey p kv.1).getD kv.2))
    ++ p.filter (fun kv => (lookupKey d kv.1).isNone)

/-- Substring test: `pat` occurs contiguously in `s` (Python `pat in s`). -/
def strContains (s pat : String) : Bool :=
  (List.range (s.length + 1)).any (fun i => pat.data.isPrefixOf (s.data.drop i))

/-- Python `str.upper()` on the ASCII range (all property keys of this model
are ASCII). -/
def pyUpper (s : String) : String :=
  ⟨s.data.map (fun c => if 'a' ≤ c ∧ c ≤ 'z' then Char.ofNat (c.toNat - 32) else c)⟩

/-- The integer content of a Python value, as seen by `isinstance(value, int)`
and integer equality: Python `bool` is a subclass of `int` with
`True == 1` and `False == 0`. -/
def pyInt : JValue → Option Int
  | .int n => some n
  | .bool b => some (if b then 1 else 0)
  | _ => none

/-- Python `x or default` for an optional string argument: `None` and the
empty string are both falsy. -/
def pyOr (x : Option String) (dflt : String) : String :=
  match x with
  | some s => if s = "" then dflt else s
  | none => dflt

/-- Field access on a JSON value (`jsonpath_rw` `Fields`): a missing key or a
non-dict value yields no match. -/
def jField : JValue → String → Option JValue
  | .obj fs, k => lookupKey fs k
  | _, _ => none

/-- `jsonpath_rw` `[*]` (unbounded slice): on a list it yields the elements;
a dict or scalar is wrapped into a one-element list and hence yielded
as-is. -/
def jStar : JValue → List JValue
  | .arr xs => xs
  | v => [v]

namespace MyriaPlan

/-- `MyriaPlan.fragments`: all matches of `$.plan.fragments.[*]` against the
backing document. -/
def fragments (json : JValue) : List JValue :=
  match (jField json "plan").bind (fun p => jField p "fragments") with
  | some v => jStar v
  | none => []

/-- `MyriaPlan.operators`: all matches of `$.plan.fragments.[*].operators.[*]`
against the backing document. -/
def operators (json : JValue) : List JValue :=
  (fragments json).flatMap (fun f =>
    match jField f "operators" with
    | some v => jStar v
    | none => [])

end MyriaPlan

namespace MyriaFragment

/-- `MyriaFragment.workers`: `self.value['overrideWorkers']` (as an optional
lookup; the Python code raises `KeyError` when the field is absent). -/
def workers (frag : JValue) : Option JValue :=
  jField frag "overrideWorkers"

/-- `MyriaFragment.operators`: all matches of `` `this`.operators.[*] ``
against the fragment value. -/
def operators (frag : JValue) : List JValue :=
  match jField frag "operators" with
  | some v => jStar v
  | none => []

end MyriaFragment

namespace MyriaOperator

/-- `MyriaOperator.id` read as a Python integer: `self.value['opId']`,
`none` when the key is absent or its value is not an int (the Python code
raises `KeyError` in the absent case; theorems about `parent`/`children`
carry the hypothesis that every operator has an `opId`, ruling that out). -/
def idInt (op : JValue) : Option Int :=
  (jField op "opId").bind pyInt

/-- `MyriaOperator._child_ids`: the values of those properties whose key
contains the substring CHILD case-insensitively and whose value is an
integer, in property order. -/
def _child_ids : JValue → List Int
  | .obj fs => fs.filterMap (fun kv =>
      if strContains (pyUpper kv.1) "CHILD" then pyInt kv.2 else none)
  | _ => []

/-- `MyriaOperator.children`: the operators of the whole plan whose id occurs
among this operator's `_child_ids`. -/
def children (doc op : JValue) : List JValue :=
  (MyriaPlan.operators doc).filter (fun o =>
    match idInt o with
    | some i => (_child_ids op).contains i
    | none => false)

/-- Python integer equality between two operators' ids (`self.id == child.id`);
false when either is not an integer. -/
def idEqB (x y : JValue) : Bool :=
  match idInt x, idInt y with
  | some a, some b => a == b
  | _, _ => false

/-- `MyriaOperator.parent`: the first operator of the plan, in fragment/
operator enumeration order, having among its resolved children an operator
with this operator's id; `none` if there is none. -/
def parent (doc x : JValue) : Option JValue :=
  (MyriaPlan.operators doc).find? (fun op =>
    (children doc op).any (fun child => idEqB x child))

end MyriaOperator

/-- Python errors surfaced by the operator view's dict protocol. -/
inductive PyError : Type where
  | keyError (k : String)
  | attributeError (attr : String)

/-- The attribute names of a Python 2 `dict` object (its public methods).
Note that `contains` is not among them: the membership test is spelled
`__contains__` in the data model, not `contains`. -/
def dictMethods : List String :=
  ["clear", "copy", "fromkeys", "get", "has_key", "items", "iteritems",
   "iterkeys", "itervalues", "keys", "pop", "popitem", "setdefault",
   "update", "values", "viewitems", "viewkeys", "viewvalues"]

namespace MyriaOperator

/-- `MyriaOperator.__getitem__`: `self.value[item]`, raising `KeyError` for a
missing key. -/
def getitem (fields : List (String × JValue)) (item : String) :
    Except PyError JValue :=
  match lookupKey fields item with
  | some v => .ok v
  | none => .error (.keyError item)

/-- `MyriaOperator.__contains__`: the source evaluates
`self.value.contains(item)`.  Attribute lookup of `contains` on a Python
dict is resolved against the dict method table; when absent it raises
`AttributeError` before any membership test can happen. -/
def containsTest (fields : List (String × JValue)) (item : String) :
    Except PyError Bool :=
  if "contains" ∈ dictMethods then
    .ok (lookupKey fields item).isSome
  else
    .error (.attributeError "contains")

end MyriaOperator

/-! ## The parallel-import plan builder -/

def DEFAULT_SCAN_TYPE : String := "FileScan"

def DEFAULT_INSERT_TYPE : String := "DbInsert"

/-- `__increment(value)`: `value[0] += 1; return value[0] - 1`.  The shared
one-element list becomes explicit state: the function returns the value
before the increment together with the incremented counter. -/
def __increment (value : Int) : Int × Int :=
  (value, value + 1)

/-- `_get_parallel_import_fragment`: builds one fragment for one
`(worker-id, data-source)` assignment.  The mutable `taskid` list is threaded
explicitly as the trailing `Int` argument and returned updated. -/
def _get_parallel_import_fragment
    (schema : List (String × JValue)) (relation : JValue)
    (scan_type insert_type : Option String)
    (scan_parameters insert_parameters : Option (List (String × JValue)))
    (assignment : Int × JValue) (taskid : Int) : JValue × Int :=
  let worker_id := assignment.1
  let datasource := assignment.2
  let (scanId, taskid1) := __increment taskid
  let scan := dictUpdate
    [("opId", .int scanId),
     ("opType", .str (pyOr scan_type DEFAULT_SCAN_TYPE)),
     ("schema", .obj schema),
     ("source", datasource)]
    (scan_parameters.getD [])
  let (insertId, taskid2) := __increment taskid1
  let insert := dictUpdate
    [("opId", .int insertId),
     ("opType", .str (pyOr insert_type DEFAULT_INSERT_TYPE)),
     ("argChild", .int (taskid2 - 2)),
     ("argOverwriteTable", .bool true),
     ("relationKey", relation)]
    (insert_parameters.getD [])
  (.obj [("overrideWorkers", .arr [.int worker_id]),
         ("operators", .arr [.obj scan, .obj insert])],
   taskid2)

/-- Python 2 `map` over the work list with the shared counter threaded
through every call (the builder shares one `taskid` list across all
fragments of one call). -/
def mapSharedCounter {α : Type} (f : α → Int → JValue × Int) :
    List α → Int → List JValue × Int
  | [], c => ([], c)
  | a :: rest, c =>
    let (y, c1) := f a c
    let (ys, c2) := mapSharedCounter f rest c1
    (y :: ys, c2)

/-- `get_parallel_import_plan`: one fragment per work entry, with a counter
freshly initialised to 0 on every call (`[0]` is evaluated at call time). -/
def get_parallel_import_plan
    (schema : List (String × JValue)) (work : List (Int × JValue))
    (relation : JValue) (text : String)
    (scan_parameters insert_parameters : Option (List (String × JValue)))
    (scan_type insert_type : Option String) : JValue :=
  .obj [("fragments", .arr
          (mapSharedCounter
            (_get_parallel_import_fragment schema relation
              scan_type insert_type scan_parameters insert_parameters)
            work 0).1),
        ("logicalRa", .str text),
        ("rawQuery", .str text)]

/-! ## Derived helpers used to state the claims -/

/-- The fragments list stored in a built document (its top-level `fragments`
field). -/
def docFragments (doc : JValue) : List JValue :=
  match jField doc "fragments" with
  | some (.arr xs) => xs
  | _ => []

/-- All operators of a built document, in fragment/operator order. -/
def allOps (doc : JValue) : List JValue :=
  (docFragments doc).flatMap MyriaFragment.operators

/-- Nesting a document under a `plan` key, the shape the view layer's
`$.plan.…` paths address. -/
def wrapPlan (doc : JValue) : JValue :=
  .obj [("plan", doc)]

/-- `[c, c+1, …, c+n-1]`. -/
def intRange (c : Int) : Nat → List Int
  | 0 => []
  | n + 1 => c :: intRange (c + 1) n

/-- The optional parameter dict `p` has no binding for key `k`. -/
def noKey (p : Option (List (String × JValue))) (k : String) : Prop :=
  lookupKey (p.getD []) k = none

/-- The optional parameter dict `p` has no key containing CHILD
case-insensitively. -/
def noChildKey (p : Option (List (String × JValue))) : Prop :=
  ∀ kv ∈ p.getD [], strContains (pyUpper kv.1) "CHILD" = false

/-! ## General lemmas about dict update and lookup -/

theorem find?_congr_mem {α : Type} (p q : α → Bool) (l : List α)
    (h : ∀ a ∈ l, p a = q a) : l.find? p = l.find? q := by
  induction l with
  | nil => rfl
  | cons a t ih =>
    have ha := h a (by simp)
    simp only [List.find?]
    rw [ha]
    cases hq : q a with
    | true => rfl
    | false => exact ih (fun b hb => h b (by simp [hb]))

theorem find?_filter_key (p : List (String × JValue))
    (q : String × JValue → Bool) (k : String)
    (hq : ∀ kv : String × JValue, kv.1 = k → q kv = true) :
    (p.filter q).find? (fun kv => kv.1 == k) = p.find? (fun kv => kv.1 == k) := by
  induction p with
  | nil => rfl
  | cons a t ih =>
    by_cases ha : a.1 = k
    · have hqa : q a = true := hq a ha
      simp [List.filter_cons, hqa, List.find?, ha, ih]
    · have ha' : (a.1 == k) = false := by simp [ha]
      cases hqa : q a with
      | true => simp [List.filter_cons, hqa, List.find?, ha', ih]
      | false => simp [List.filter_cons, hqa, List.find?, ha', ih]

theorem lookupKey_def (l : List (String × JValue)) (k : String) :
    lookupKey l k = (l.find? (fun kv => kv.1 == k)).map Prod.snd := by
  unfold lookupKey
  cases l.find? (fun kv => kv.1 == k) <;> rfl

theorem lookupKey_append (l1 l2 : List (String × JValue)) (k : String) :
    lookupKey (l1 ++ l2) k = (lookupKey l1 k).or (lookupKey l2 k) := by
  rw [lookupKey_def, lookupKey_def, lookupKey_def, List.find?_append]
  cases l1.find? (fun kv => kv.1 == k) <;> simp

theorem lookupKey_cons (a : String × JValue) (t : List (String × JValue))
    (k : String) :
    lookupKey (a :: t) k = if a.1 = k then some a.2 else lookupKey t k := by
  rw [lookupKey_def, lookupKey_def]
  by_cases h : a.1 = k
  · rw [List.find?_cons_of_pos _ (by simp [h])]
    simp [h]
  · rw [List.find?_cons_of_neg _ (by simp [h])]
    simp [h]

theorem lookupKey_map_update (d p : List (String × JValue)) (k : String) :
    lookupKey (d.map (fun kv => (kv.1, (lookupKey p kv.1).getD kv.2))) k
      = (lookupKey d k).map (fun v => (lookupKey p k).getD v) := by
  induction d with
  | nil => rfl
  | cons a t ih =>
    simp only [List.map_cons, lookupKey_cons]
    by_cases ha : a.1 = k
    · subst ha
      simp
    · simp [ha, ih]

theorem lookupKey_filter_none (d p : List (String × JValue)) (k : String)
    (hd : lookupKey d k = none) :
    lookupKey (p.filter (fun kv => (lookupKey d kv.1).isNone)) k
      = lookupKey p k := by
  have h := find?_filter_key p (fun kv => (lookupKey d kv.1).isNone) k
    (fun kv hkv => by simp [hkv, hd])
  rw [lookupKey_def, lookupKey_def, h]

theorem lookupKey_dictUpdate (d p : List (String × JValue)) (k : String) :
    lookupKey (dictUpdate d p) k = (lookupKey p k).or (lookupKey d k) := by
  unfold dictUpdate
  rw [lookupKey_append, lookupKey_map_update]
  cases hd : lookupKey d k with
  | some v => cases hp : lookupKey p k <;> simp
  | none =>
    rw [lookupKey_filter_none d p k hd]
    cases hp : lookupKey p k <;> simp

/-! ## The builder's output, in closed form -/

/-- The six plan-wide arguments of the builder, bundled for the lemmas. -/
structure BuildArgs where
  schema : List (String × JValue)
  relation : JValue
  scan_type : Option String
  insert_type : Option String
  scan_parameters : Option (List (String × JValue))
  insert_parameters : Option (List (String × JValue))

/-- The scan operator emitted for data source `ds` when the counter reads
`c`. -/
def scanOf (A : BuildArgs) (c : Int) (ds : JValue) : List (String × JValue) :=
  dictUpdate
    [("opId", .int c),
     ("opType", .str (pyOr A.scan_type DEFAULT_SCAN_TYPE)),
     ("schema", .obj A.schema),
     ("source", ds)]
    (A.scan_parameters.getD [])

/-- The insert operator emitted after the scan of the same fragment; the
counter read `c` when the fragment was entered, so the insert's own id is
`c + 1` and `taskid - 2` evaluates to `c`. -/
def insertOf (A : BuildArgs) (c : Int) : List (String × JValue) :=
  dictUpdate
    [("opId", .int (c + 1)),
     ("opType", .str (pyOr A.insert_type DEFAULT_INSERT_TYPE)),
     ("argChild", .int c),
     ("argOverwriteTable", .bool true),
     ("relationKey", A.relation)]
    (A.insert_parameters.getD [])

/-- The fragment emitted for assignment `a` when the counter reads `c`. -/
def fragVal (A : BuildArgs) (c : Int) (a : Int × JValue) : JValue :=
  .obj [("overrideWorkers", .arr [.int a.1]),
        ("operators", .arr [.obj (scanOf A c a.2), .obj (insertOf A c)])]

/-- `_get_parallel_import_fragment` with its six plan-wide arguments
bundled. -/
def fragFn (A : BuildArgs) : (Int × JValue) → Int → JValue × Int :=
  _get_parallel_import_fragment A.schema A.relation A.scan_type A.insert_type
    A.scan_parameters A.insert_parameters

/-- The fragments list the builder maps out of the work list, counter
threaded. -/
def buildList (A : BuildArgs) (work : List (Int × JValue)) (c : Int) :
    List JValue :=
  (mapSharedCounter (fragFn A) work c).1

/-- All operators the builder emits for `work` starting at counter `c`, in
fragment/operator order. -/
def opsFrom (A : BuildArgs) : List (Int × JValue) → Int → List JValue
  | [], _ => []
  | a :: rest, c =>
    .obj (scanOf A c a.2) :: .obj (insertOf A c) :: opsFrom A rest (c + 2)

theorem fragFn_eq (A : BuildArgs) (a : Int × JValue) (c : Int) :
    fragFn A a c = (fragVal A c a, c + 2) := by
  have h1 : c + 1 + 1 - 2 = c := by ring
  have h2 : c + 1 + 1 = c + 2 := by ring
  simp only [fragFn, _get_parallel_import_fragment, __increment, fragVal,
    scanOf, insertOf]
  rw [h1, h2]

theorem buildList_nil (A : BuildArgs) (c : Int) : buildList A [] c = [] := rfl

theorem buildList_cons (A : BuildArgs) (a : Int × JValue)
    (rest : List (Int × JValue)) (c : Int) :
    buildList A (a :: rest) c = fragVal A c a :: buildList A rest (c + 2) := by
  simp [buildList, mapSharedCounter, fragFn_eq]

theorem buildList_length (A : BuildArgs) (work : List (Int × JValue)) :
    ∀ c : Int, (buildList A work c).length = work.length := by
  induction work with
  | nil => intro c; rfl
  | cons a rest ih => intro c; rw [buildList_cons]; simp [ih]

theorem fragOps_fragVal (A : BuildArgs) (c : Int) (a : Int × JValue) :
    MyriaFragment.operators (fragVal A c a)
      = [.obj (scanOf A c a.2), .obj (insertOf A c)] := rfl

theorem buildList_flatMap (A : BuildArgs) (work : List (Int × JValue)) :
    ∀ c : Int,
      (buildList A work c).flatMap MyriaFragment.operators = opsFrom A work c := by
  induction work with
  | nil => intro c; rfl
  | cons a rest ih =>
    intro c
    rw [buildList_cons, List.flatMap_cons, fragOps_fragVal, ih]
    rfl

theorem opsFrom_length (A : BuildArgs) (work : List (Int × JValue)) :
    ∀ c : Int, (opsFrom A work c).length = 2 * work.length := by
  induction work with
  | nil => intro c; rfl
  | cons a rest ih =>
    intro c
    simp only [opsFrom, List.length_cons, ih, List.length]
    ring

theorem buildList_get? (A : BuildArgs) (work : List (Int × JValue)) :
    ∀ (c : Int) (k : Nat) (hk : k < work.length),
      (buildList A work c).get? k
        = some (fragVal A (c + 2 * k) (work.get ⟨k, hk⟩)) := by
  induction work with
  | nil => intro c k hk; exact absurd hk (by simp)
  | cons a rest ih =>
    intro c k hk
    rw [buildList_cons]
    cases k with
    | zero => simp
    | succ m =>
      have hm : m < rest.length := by simpa using hk
      have harith : c + 2 + 2 * (m : Int) = c + 2 * ((m : Int) + 1) := by ring
      simp only [List.get?_cons_succ, ih (c + 2) m hm, harith]
      norm_num

/-! ## Lookups on the emitted operators -/

theorem scanOf_lookup_opId (A : BuildArgs) (c : Int) (ds : JValue)
    (h : noKey A.scan_parameters "opId") :
    lookupKey (scanOf A c ds) "opId" = some (.int c) := by
  have h' : lookupKey (A.scan_parameters.getD []) "opId" = none := h
  rw [scanOf, lookupKey_dictUpdate, h']
  rfl

theorem scanOf_lookup_override (A : BuildArgs) (c : Int) (ds : JValue)
    (key : String) (v : JValue)
    (h : lookupKey (A.scan_parameters.getD []) key = some v) :
    lookupKey (scanOf A c ds) key = some v := by
  rw [scanOf, lookupKey_dictUpdate, h]
  rfl

theorem insertOf_lookup_opId (A : BuildArgs) (c : Int)
    (h : noKey A.insert_parameters "opId") :
    lookupKey (insertOf A c) "opId" = some (.int (c + 1)) := by
  have h' : lookupKey (A.insert_parameters.getD []) "opId" = none := h
  rw [insertOf, lookupKey_dictUpdate, h']
  rfl

theorem insertOf_lookup_argChild (A : BuildArgs) (c : Int)
    (h : noKey A.insert_parameters "argChild") :
    lookupKey (insertOf A c) "argChild" = some (.int c) := by
  have h' : lookupKey (A.insert_parameters.getD []) "argChild" = none := h
  rw [insertOf, lookupKey_dictUpdate, h']
  rfl

theorem insertOf_lookup_override (A : BuildArgs) (c : Int)
    (key : String) (v : JValue)
    (h : lookupKey (A.insert_parameters.getD []) key = some v) :
    lookupKey (insertOf A c) key = some v := by
  rw [insertOf, lookupKey_dictUpdate, h]
  rfl

theorem idInt_scanOf (A : BuildArgs) (c : Int) (ds : JValue)
    (h : noKey A.scan_parameters "opId") :
    MyriaOperator.idInt (.obj (scanOf A c ds)) = some c := by
  show (lookupKey (scanOf A c ds) "opId").bind pyInt = some c
  rw [scanOf_lookup_opId A c ds h]
  rfl

theorem idInt_insertOf (A : BuildArgs) (c : Int)
    (h : noKey A.insert_parameters "opId") :
    MyriaOperator.idInt (.obj (insertOf A c)) = some (c + 1) := by
  show (lookupKey (insertOf A c) "opId").bind pyInt = some (c + 1)
  rw [insertOf_lookup_opId A c h]
  rfl

/-! ## Child-id discovery on the emitted operators -/

theorem noChildKey_lookup (p : Option (List (String × JValue)))
    (h : noChildKey p) (k : String)
    (hk : strContains (pyUpper k) "CHILD" = true) :
    lookupKey (p.getD []) k = none := by
  rw [lookupKey_def]
  cases hf : (p.getD []).find? (fun kv => kv.1 == k) with
  | none => rfl
  | some kv =>
    have hmem := List.mem_of_find?_eq_some hf
    have hk1 : kv.1 = k := by simpa using List.find?_some hf
    have hfalse := h kv hmem
    rw [hk1, hk] at hfalse
    simp at hfalse

theorem child_ids_dictUpdate (base p : List (String × JValue))
    (hbase : ∀ kv ∈ base, strContains (pyUpper kv.1) "CHILD" = false)
    (hp : ∀ kv ∈ p, strContains (pyUpper kv.1) "CHILD" = false) :
    MyriaOperator._child_ids (.obj (dictUpdate base p)) = [] := by
  show (dictUpdate base p).filterMap
      (fun kv => if strContains (pyUpper kv.1) "CHILD" then pyInt kv.2 else none)
      = []
  unfold dictUpdate
  rw [List.filterMap_append, List.filterMap_map]
  refine List.append_eq_nil.mpr ⟨?_, ?_⟩
  · refine List.filterMap_eq_nil_iff.mpr (fun kv hkv => ?_)
    simp [Function.comp, hbase kv hkv]
  · refine List.filterMap_eq_nil_iff.mpr (fun kv hkv => ?_)
    simp [hp kv (List.mem_of_mem_filter hkv)]

theorem child_ids_scanOf (A : BuildArgs) (c : Int) (ds : JValue)
    (h : noChildKey A.scan_parameters) :
    MyriaOperator._child_ids (.obj (scanOf A c ds)) = [] := by
  rw [scanOf]
  refine child_ids_dictUpdate _ _ (fun kv hkv => ?_) h
  simp only [List.mem_cons, List.not_mem_nil, or_false] at hkv
  rcases hkv with h1 | h1 | h1 | h1
  · rw [h1]; exact (by decide : strContains (pyUpper "opId") "CHILD" = false)
  · rw [h1]; exact (by decide : strContains (pyUpper "opType") "CHILD" = false)
  · rw [h1]; exact (by decide : strContains (pyUpper "schema") "CHILD" = false)
  · rw [h1]; exact (by decide : strContains (pyUpper "source") "CHILD" = false)

theorem child_ids_insertOf (A : BuildArgs) (c : Int)
    (h : noChildKey A.insert_parameters) :
    MyriaOperator._child_ids (.obj (insertOf A c)) = [c] := by
  have hlook : lookupKey (A.insert_parameters.getD []) "argChild" = none :=
    noChildKey_lookup _ h "argChild" (by decide)
  have hOpId : strContains (pyUpper "opId") "CHILD" = false := by decide
  have hOpType : strContains (pyUpper "opType") "CHILD" = false := by decide
  have hArg : strContains (pyUpper "argChild") "CHILD" = true := by decide
  have hOver : strContains (pyUpper "argOverwriteTable") "CHILD" = false := by
    decide
  have hRel : strContains (pyUpper "relationKey") "CHILD" = false := by decide
  show (insertOf A c).filterMap
      (fun kv => if strContains (pyUpper kv.1) "CHILD" then pyInt kv.2 else none)
      = [c]
  rw [insertOf]
  unfold dictUpdate
  rw [List.filterMap_append, List.filterMap_map]
  have h2 : ((A.insert_parameters.getD []).filter
      (fun kv => (lookupKey [("opId", JValue.int (c + 1)),
        ("opType", JValue.str (pyOr A.insert_type DEFAULT_INSERT_TYPE)),
        ("argChild", JValue.int c),
        ("argOverwriteTable", JValue.bool true),
        ("relationKey", A.relation)] kv.1).isNone)).filterMap
      (fun kv => if strContains (pyUpper kv.1) "CHILD" then pyInt kv.2 else none)
      = [] := by
    refine List.filterMap_eq_nil_iff.mpr (fun kv hkv => ?_)
    simp [h kv (List.mem_of_mem_filter hkv)]
  rw [h2, List.append_nil]
  simp [Function.comp, List.filterMap_cons, hOpId, hOpType, hArg, hOver, hRel,
    hlook, pyInt]

/-! ## The operator list of a built plan -/

theorem opsFrom_get?_even (A : BuildArgs) (work : List (Int × JValue)) :
    ∀ (c : Int) (k : Nat) (hk : k < work.length),
      (opsFrom A work c).get? (2 * k)
        = some (.obj (scanOf A (c + 2 * k) (work.get ⟨k, hk⟩).2)) := by
  induction work with
  | nil => intro c k hk; exact absurd hk (by simp)
  | cons a rest ih =>
    intro c k hk
    cases k with
    | zero => simp [opsFrom]
    | succ m =>
      have hm : m < rest.length := by simpa using hk
      have h2 : 2 * (m + 1) = 2 * m + 1 + 1 := by ring
      have harith : c + 2 + 2 * (m : Int) = c + 2 * ((m : Int) + 1) := by ring
      rw [h2]
      simp only [opsFrom, List.get?_cons_succ, ih (c + 2) m hm, harith]
      norm_num

theorem opsFrom_get?_odd (A : BuildArgs) (work : List (Int × JValue)) :
    ∀ (c : Int) (k : Nat), k < work.length →
      (opsFrom A work c).get? (2 * k + 1)
        = some (.obj (insertOf A (c + 2 * k))) := by
  induction work with
  | nil => intro c k hk; exact absurd hk (by simp)
  | cons a rest ih =>
    intro c k hk
    cases k with
    | zero => simp [opsFrom]
    | succ m =>
      have hm : m < rest.length := by simpa using hk
      have h2 : 2 * (m + 1) + 1 = 2 * m + 1 + 1 + 1 := by ring
      have harith : c + 2 + 2 * (m : Int) = c + 2 * ((m : Int) + 1) := by ring
      rw [h2]
      simp only [opsFrom, List.get?_cons_succ, ih (c + 2) m hm, harith]
      norm_num

theorem scan_mem_opsFrom (A : BuildArgs) (work : List (Int × JValue)) :
    ∀ (c : Int) (k : Nat) (hk : k < work.length),
      JValue.obj (scanOf A (c + 2 * k) (work.get ⟨k, hk⟩).2) ∈ opsFrom A work c := by
  intro c k hk
  exact List.get?_mem (opsFrom_get?_even A work c k hk)

theorem insert_mem_opsFrom (A : BuildArgs) (work : List (Int × JValue)) :
    ∀ (c : Int) (k : Nat), k < work.length →
      JValue.obj (insertOf A (c + 2 * k)) ∈ opsFrom A work c := by
  intro c k hk
  exact List.get?_mem (opsFrom_get?_odd A work c k hk)

theorem opsFrom_ids (A : BuildArgs) (work : List (Int × JValue))
    (hs : noKey A.scan_parameters "opId") (hi : noKey A.insert_parameters "opId") :
    ∀ c : Int,
      (opsFrom A work c).map MyriaOperator.idInt
        = (intRange c (2 * work.length)).map some := by
  induction work with
  | nil => intro c; rfl
  | cons a rest ih =>
    intro c
    have h2 : 2 * (rest.length + 1) = 2 * rest.length + 1 + 1 := by ring
    simp only [List.length_cons, h2, intRange, opsFrom, List.map_cons,
      idInt_scanOf A c a.2 hs, idInt_insertOf A c hi, ih (c + 2)]
    have h3 : c + 1 + 1 = c + 2 := by ring
    rw [h3]
    rfl

/-! ## Facts about `intRange` -/

theorem intRange_mem (n : Nat) :
    ∀ (c i : Int), i ∈ intRange c n ↔ c ≤ i ∧ i < c + n := by
  induction n with
  | zero =>
    intro c i
    simp only [intRange, List.not_mem_nil, false_iff]
    omega
  | succ m ih =>
    intro c i
    simp only [intRange, List.mem_cons, ih (c + 1) i]
    omega

theorem intRange_pairwise (n : Nat) :
    ∀ c : Int, (intRange c n).Pairwise (· < ·) := by
  induction n with
  | zero => intro c; exact List.Pairwise.nil
  | succ m ih =>
    intro c
    refine List.pairwise_cons.mpr ⟨fun b hb => ?_, ih (c + 1)⟩
    have := (intRange_mem m (c + 1) b).mp hb
    omega

/-! ## Connecting the built document with the views -/

theorem docFragments_plan (schema : List (String × JValue))
    (work : List (Int × JValue)) (relation : JValue) (text : String)
    (sp ip : Option (List (String × JValue))) (st it : Option String) :
    docFragments (get_parallel_import_plan schema work relation text sp ip st it)
      = buildList ⟨schema, relation, st, it, sp, ip⟩ work 0 := rfl

theorem allOps_plan (schema : List (String × JValue))
    (work : List (Int × JValue)) (relation : JValue) (text : String)
    (sp ip : Option (List (String × JValue))) (st it : Option String) :
    allOps (get_parallel_import_plan schema work relation text sp ip st it)
      = opsFrom ⟨schema, relation, st, it, sp, ip⟩ work 0 := by
  show (docFragments _).flatMap MyriaFragment.operators = _
  rw [docFragments_plan, buildList_flatMap]

theorem view_fragments_plan (schema : List (String × JValue))
    (work : List (Int × JValue)) (relation : JValue) (text : String)
    (sp ip : Option (List (String × JValue))) (st it : Option String) :
    MyriaPlan.fragments
        (wrapPlan (get_parallel_import_plan schema work relation text sp ip st it))
      = buildList ⟨schema, relation, st, it, sp, ip⟩ work 0 := rfl

theorem view_operators_plan (schema : List (String × JValue))
    (work : List (Int × JValue)) (relation : JValue) (text : String)
    (sp ip : Option (List (String × JValue))) (st it : Option String) :
    MyriaPlan.operators
        (wrapPlan (get_parallel_import_plan schema work relation text sp ip st it))
      = opsFrom ⟨schema, relation, st, it, sp, ip⟩ work 0 := by
  show (MyriaPlan.fragments _).flatMap MyriaFragment.operators = _
  rw [view_fragments_plan, buildList_flatMap]

/-! ## The parent computation -/

theorem parent_charHelper (doc x : JValue) (ix : Int)
    (hx : x ∈ MyriaPlan.operators doc)
    (hid : MyriaOperator.idInt x = some ix) :
    MyriaOperator.parent doc x
      = (MyriaPlan.operators doc).find?
          (fun op => (MyriaOperator._child_ids op).contains ix) := by
  unfold MyriaOperator.parent
  apply find?_congr_mem
  intro op hop
  rw [Bool.eq_iff_iff]
  constructor
  · intro hany
    obtain ⟨child, hchild, heq⟩ := List.any_eq_true.mp hany
    obtain ⟨hcm, hcp⟩ := List.mem_filter.mp hchild
    unfold MyriaOperator.idEqB at heq
    rw [hid] at heq
    cases hcid : MyriaOperator.idInt child with
    | none => rw [hcid] at heq; exact absurd heq (by simp)
    | some ci =>
      rw [hcid] at heq hcp
      have : ix = ci := by simpa using heq
      rw [this]
      exact hcp
  · intro hcontains
    refine List.any_eq_true.mpr ⟨x, ?_, ?_⟩
    · refine List.mem_filter.mpr ⟨hx, ?_⟩
      rw [hid]
      exact hcontains
    · unfold MyriaOperator.idEqB
      rw [hid]
      simp

theorem contains_singleton (c i : Int) : ([c].contains i) = (i == c) := by
  rw [Bool.eq_iff_iff]
  simp [List.contains_eq_any_beq]

theorem find_child_none (A : BuildArgs)
    (hsp : noChildKey A.scan_parameters) (hip : noChildKey A.insert_parameters)
    (work : List (Int × JValue)) :
    ∀ (c ix : Int), (∀ k : Nat, k < work.length → ix ≠ c + 2 * k) →
      (opsFrom A work c).find?
          (fun op => (MyriaOperator._child_ids op).contains ix) = none := by
  induction work with
  | nil => intro c ix h; rfl
  | cons a rest ih =>
    intro c ix h
    have hne : ix ≠ c := by
      have := h 0 (by simp)
      simpa using this
    show List.find? _ (_ :: _ :: _) = none
    rw [List.find?_cons_of_neg _ (by simp [child_ids_scanOf A c a.2 hsp]),
        List.find?_cons_of_neg _ (by simp [child_ids_insertOf A c hip, hne])]
    refine ih (c + 2) ix (fun k hk => ?_)
    have := h (k + 1) (by simpa using hk)
    push_cast at this ⊢
    omega

theorem find_child_some (A : BuildArgs)
    (hsp : noChildKey A.scan_parameters) (hip : noChildKey A.insert_parameters)
    (work : List (Int × JValue)) :
    ∀ (c ix : Int) (k : Nat), k < work.length → ix = c + 2 * k →
      (opsFrom A work c).find?
          (fun op => (MyriaOperator._child_ids op).contains ix)
        = some (.obj (insertOf A ix)) := by
  induction work with
  | nil => intro c ix k hk; exact absurd hk (by simp)
  | cons a rest ih =>
    intro c ix k hk hix
    show List.find? _ (_ :: _ :: _) = some _
    rw [List.find?_cons_of_neg _ (by simp [child_ids_scanOf A c a.2 hsp])]
    cases k with
    | zero =>
      have hixc : ix = c := by simpa using hix
      rw [List.find?_cons_of_pos _
        (by simp [child_ids_insertOf A c hip, hixc]), hixc]
    | succ m =>
      have hm : m < rest.length := by simpa using hk
      have hne : ix ≠ c := by push_cast at hix; omega
      rw [List.find?_cons_of_neg _
        (by simp [child_ids_insertOf A c hip, hne])]
      refine ih (c + 2) ix m hm ?_
      push_cast at hix ⊢
      omega

theorem jField_obj (fs : List (String × JValue)) (k : String) :
    jField (.obj fs) k = lookupKey fs k := rfl

/-! ## The claims -/

/-- C1: for every schema, relation and work list of N entries (the optional
parameter dicts not overriding `opId`), `get_parallel_import_plan` produces
exactly N fragments and 2N operators whose opId values are exactly the set
`{0, …, 2N-1}` (characterised below by the strictly increasing, duplicate-free
list `intRange 0 (2N)` and its membership description), strictly increasing in
work-entry order, the scan and insert of fragment k receiving ids 2k and
2k+1. -/
theorem C1_plan_id_range (schema : List (String × JValue))
    (work : List (Int × JValue)) (relation : JValue) (text : String)
    (sp ip : Option (List (String × JValue))) (st it : Option String)
    (hs : noKey sp "opId") (hi : noKey ip "opId") :
    (docFragments
        (get_parallel_import_plan schema work relation text sp ip st it)).length
      = work.length ∧
    (allOps
        (get_parallel_import_plan schema work relation text sp ip st it)).length
      = 2 * work.length ∧
    (allOps (get_parallel_import_plan schema work relation text sp ip st it)).map
        MyriaOperator.idInt
      = (intRange 0 (2 * work.length)).map some ∧
    (intRange 0 (2 * work.length)).Pairwise (· < ·) ∧
    (∀ i : Int,
      i ∈ intRange 0 (2 * work.length) ↔ 0 ≤ i ∧ i < 2 * work.length) ∧
    (∀ (k : Nat), k < work.length → ∃ frag,
      (docFragments
          (get_parallel_import_plan schema work relation text sp ip st it)).get? k
        = some frag ∧
      (MyriaFragment.operators frag).map MyriaOperator.idInt
        = [some (2 * (k : Int)), some (2 * (k : Int) + 1)]) := by
  refine ⟨?_, ?_, ?_, ?_, ?_, ?_⟩
  · rw [docFragments_plan]
    exact buildList_length _ work 0
  · rw [allOps_plan]
    exact opsFrom_length _ work 0
  · rw [allOps_plan]
    exact opsFrom_ids _ work hs hi 0
  · exact intRange_pairwise _ 0
  · intro i
    rw [intRange_mem]
    omega
  · intro k hk
    refine ⟨fragVal ⟨schema, relation, st, it, sp, ip⟩ (0 + 2 * k)
      (work.get ⟨k, hk⟩), ?_, ?_⟩
    · rw [docFragments_plan]
      exact buildList_get? _ work 0 k hk
    · rw [fragOps_fragVal, List.map_cons, List.map_cons, List.map_nil,
        idInt_scanOf _ _ _ hs, idInt_insertOf _ _ hi]
      have h1 : (0 : Int) + 2 * (k : Int) = 2 * (k : Int) := by ring
      rw [h1]

/-- Witness for C1: a concrete two-entry work list, where the operator ids
enumerate to `[0, 1, 2, 3]`. -/
theorem C1_plan_id_range_witness :
    (allOps (get_parallel_import_plan [] [(1, JValue.str "a"), (2, JValue.str "b")]
        (JValue.str "R") "" none none none none)).map MyriaOperator.idInt
      = [some 0, some 1, some 2, some 3] :=
  (C1_plan_id_range [] [(1, JValue.str "a"), (2, JValue.str "b")]
    (JValue.str "R") "" none none none none rfl rfl).2.2.1

/-- C2: in every fragment the builder produces (the parameter dicts not
overriding `opId` of the scan or `argChild` of the insert), the insert
operator's `argChild` property equals the `opId` of the scan operator of the
same fragment, and the fragment's operators are exactly that scan followed by
that insert. -/
theorem C2_insert_child_is_scan (schema : List (String × JValue))
    (work : List (Int × JValue)) (relation : JValue) (text : String)
    (sp ip : Option (List (String × JValue))) (st it : Option String)
    (hs : noKey sp "opId") (hia : noKey ip "argChild") :
    ∀ frag ∈ docFragments
        (get_parallel_import_plan schema work relation text sp ip st it),
      ∃ s i v, MyriaFragment.operators frag = [s, i] ∧
        jField s "opId" = some (.int v) ∧
        jField i "argChild" = some (.int v) := by
  intro frag hfrag
  rw [docFragments_plan] at hfrag
  obtain ⟨n, hget⟩ := List.mem_iff_get?.mp hfrag
  have hn : n < work.length := by
    have := (List.get?_eq_some.mp hget).1
    rwa [buildList_length] at this
  rw [buildList_get? _ work 0 n hn] at hget
  have hfragEq := Option.some.inj hget
  subst hfragEq
  refine ⟨JValue.obj (scanOf ⟨schema, relation, st, it, sp, ip⟩
      (0 + 2 * (n : Int)) (work.get ⟨n, hn⟩).2),
    JValue.obj (insertOf ⟨schema, relation, st, it, sp, ip⟩ (0 + 2 * (n : Int))),
    0 + 2 * (n : Int), fragOps_fragVal _ _ _, ?_, ?_⟩
  · rw [jField_obj]
    exact scanOf_lookup_opId _ _ _ hs
  · rw [jField_obj]
    exact insertOf_lookup_argChild _ _ hia

/-- Witness for C2: the single fragment of a one-entry work list; its insert's
`argChild` equals its scan's `opId`. -/
theorem C2_insert_child_is_scan_witness :
    ∃ s i v,
      MyriaFragment.operators
          ((docFragments (get_parallel_import_plan [] [(7, JValue.str "a")]
            (JValue.str "R") "" none none none none)).get ⟨0, by decide⟩)
        = [s, i] ∧
      jField s "opId" = some (.int v) ∧
      jField i "argChild" = some (.int v) :=
  C2_insert_child_is_scan [] [(7, JValue.str "a")] (JValue.str "R") ""
    none none none none rfl rfl _ (List.get_mem _ 0 (by decide))

/-- C3 counterexample: on a one-entry work list the builder produces one
fragment, but handing the built document directly to the view layer
enumerates zero fragments, because the view layer addresses
`$.plan.fragments` while the builder emits `fragments` at top level. -/
theorem C3_counterexample :
    (MyriaPlan.fragments (get_parallel_import_plan [] [(1, JValue.str "srcA")]
        (JValue.str "R") "" none none none none)).length = 0 ∧
    (docFragments (get_parallel_import_plan [] [(1, JValue.str "srcA")]
        (JValue.str "R") "" none none none none)).length = 1 ∧
    (0 : Nat) ≠ 1 :=
  ⟨rfl, rfl, by decide⟩

/-- C3 (amended): nesting the built document under a `plan` key — the shape
the view layer's `$.plan.…` paths address — and re-enumerating through the
view layer yields exactly the builder's fragment list and operator list, hence
the same fragment count, operator ids and worker assignments. -/
theorem C3_view_roundtrip (schema : List (String × JValue))
    (work : List (Int × JValue)) (relation : JValue) (text : String)
    (sp ip : Option (List (String × JValue))) (st it : Option String) :
    MyriaPlan.fragments
        (wrapPlan (get_parallel_import_plan schema work relation text sp ip st it))
      = docFragments
          (get_parallel_import_plan schema work relation text sp ip st it) ∧
    MyriaPlan.operators
        (wrapPlan (get_parallel_import_plan schema work relation text sp ip st it))
      = allOps (get_parallel_import_plan schema work relation text sp ip st it) ∧
    (MyriaPlan.fragments
        (wrapPlan (get_parallel_import_plan schema work relation text sp ip st it))).map
        MyriaFragment.workers
      = (docFragments
          (get_parallel_import_plan schema work relation text sp ip st it)).map
          MyriaFragment.workers ∧
    (MyriaPlan.operators
        (wrapPlan (get_parallel_import_plan schema work relation text sp ip st it))).map
        MyriaOperator.idInt
      = (allOps
          (get_parallel_import_plan schema work relation text sp ip st it)).map
          MyriaOperator.idInt := by
  have h1 : MyriaPlan.fragments
      (wrapPlan (get_parallel_import_plan schema work relation text sp ip st it))
      = docFragments
          (get_parallel_import_plan schema work relation text sp ip st it) := by
    rw [view_fragments_plan, docFragments_plan]
  have h2 : MyriaPlan.operators
      (wrapPlan (get_parallel_import_plan schema work relation text sp ip st it))
      = allOps (get_parallel_import_plan schema work relation text sp ip st it) := by
    rw [view_operators_plan, allOps_plan]
  exact ⟨h1, h2, by rw [h1], by rw [h2]⟩

/-- C4: `parent` returns the first operator, in the plan's fragment/operator
enumeration order, whose `_child_ids` include this operator's id, or `none`
when no operator references it (for documents whose operators all carry an
`opId`, since Python raises `KeyError` otherwise); and in a freshly built
parallel-import plan (viewed under the `plan` key, with parameter dicts that
override neither ids nor CHILD-keyed properties) the parent of every insert
operator is `none` and the parent of every scan operator is the insert
operator of the same fragment. -/
theorem C4_parent_resolution :
    (∀ (doc x : JValue) (ix : Int),
      x ∈ MyriaPlan.operators doc →
      MyriaOperator.idInt x = some ix →
      (∀ o ∈ MyriaPlan.operators doc, (jField o "opId").isSome) →
      MyriaOperator.parent doc x
        = (MyriaPlan.operators doc).find?
            (fun op => (MyriaOperator._child_ids op).contains ix)) ∧
    (∀ (schema : List (String × JValue)) (work : List (Int × JValue))
       (relation : JValue) (text : String)
       (sp ip : Option (List (String × JValue))) (st it : Option String),
      noChildKey sp → noChildKey ip → noKey sp "opId" → noKey ip "opId" →
      ∀ (k : Nat), k < work.length →
      ∃ frag s i,
        (MyriaPlan.fragments (wrapPlan
            (get_parallel_import_plan schema work relation text sp ip st it))).get? k
          = some frag ∧
        MyriaFragment.operators frag = [s, i] ∧
        MyriaOperator.parent
            (wrapPlan (get_parallel_import_plan schema work relation text sp ip st it)) i
          = none ∧
        MyriaOperator.parent
            (wrapPlan (get_parallel_import_plan schema work relation text sp ip st it)) s
          = some i) := by
  constructor
  · intro doc x ix hx hid _
    exact parent_charHelper doc x ix hx hid
  · intro schema work relation text sp ip st it hsp hip hsId hiId k hk
    refine ⟨fragVal ⟨schema, relation, st, it, sp, ip⟩ (0 + 2 * (k : Int))
        (work.get ⟨k, hk⟩),
      JValue.obj (scanOf ⟨schema, relation, st, it, sp, ip⟩
        (0 + 2 * (k : Int)) (work.get ⟨k, hk⟩).2),
      JValue.obj (insertOf ⟨schema, relation, st, it, sp, ip⟩
        (0 + 2 * (k : Int))),
      ?_, fragOps_fragVal _ _ _, ?_, ?_⟩
    · rw [view_fragments_plan]
      exact buildList_get? _ work 0 k hk
    · have hmem := insert_mem_opsFrom ⟨schema, relation, st, it, sp, ip⟩
        work 0 k hk
      rw [← view_operators_plan schema work relation text sp ip st it] at hmem
      have hid' := idInt_insertOf ⟨schema, relation, st, it, sp, ip⟩
        (0 + 2 * (k : Int)) hiId
      rw [parent_charHelper _ _ _ hmem hid', view_operators_plan]
      refine find_child_none _ hsp hip work 0 (0 + 2 * (k : Int) + 1)
        (fun m hm => ?_)
      omega
    · have hmem := scan_mem_opsFrom ⟨schema, relation, st, it, sp, ip⟩
        work 0 k hk
      rw [← view_operators_plan schema work relation text sp ip st it] at hmem
      have hid' := idInt_scanOf ⟨schema, relation, st, it, sp, ip⟩
        (0 + 2 * (k : Int)) (work.get ⟨k, hk⟩).2 hsId
      rw [parent_charHelper _ _ _ hmem hid', view_operators_plan]
      exact find_child_some _ hsp hip work 0 (0 + 2 * (k : Int)) k hk rfl

/-- Witness for C4 on a one-entry plan: the scan's parent resolves through the
plan-wide search, the insert's parent is `none`, and the scan's parent is the
insert of its fragment. -/
theorem C4_parent_resolution_witness :
    (MyriaOperator.parent
        (wrapPlan (get_parallel_import_plan [] [(1, JValue.str "a")]
          (JValue.str "R") "" none none none none))
        (JValue.obj (scanOf ⟨[], JValue.str "R", none, none, none, none⟩ 0
          (JValue.str "a")))
      = (MyriaPlan.operators
          (wrapPlan (get_parallel_import_plan [] [(1, JValue.str "a")]
            (JValue.str "R") "" none none none none))).find?
          (fun op => (MyriaOperator._child_ids op).contains 0)) ∧
    (∃ frag s i,
      (MyriaPlan.fragments (wrapPlan (get_parallel_import_plan []
          [(1, JValue.str "a")] (JValue.str "R") "" none none none none))).get? 0
        = some frag ∧
      MyriaFragment.operators frag = [s, i] ∧
      MyriaOperator.parent (wrapPlan (get_parallel_import_plan []
          [(1, JValue.str "a")] (JValue.str "R") "" none none none none)) i
        = none ∧
      MyriaOperator.parent (wrapPlan (get_parallel_import_plan []
          [(1, JValue.str "a")] (JValue.str "R") "" none none none none)) s
        = some i) :=
  ⟨C4_parent_resolution.1
      (wrapPlan (get_parallel_import_plan [] [(1, JValue.str "a")]
        (JValue.str "R") "" none none none none))
      (JValue.obj (scanOf ⟨[], JValue.str "R", none, none, none, none⟩ 0
        (JValue.str "a")))
      0
      (by
        have h := scan_mem_opsFrom ⟨[], JValue.str "R", none, none, none, none⟩
          [(1, JValue.str "a")] 0 0 (by decide)
        rw [← view_operators_plan [] [(1, JValue.str "a")] (JValue.str "R") ""
          none none none none] at h
        exact h)
      rfl
      (by decide),
   C4_parent_resolution.2 [] [(1, JValue.str "a")] (JValue.str "R") ""
      none none none none
      (by intro kv h; exact absurd h (List.not_mem_nil kv))
      (by intro kv h; exact absurd h (List.not_mem_nil kv))
      rfl rfl 0 (by decide)⟩

/-- C5: `children` discovery selects exactly the properties whose key contains
the substring CHILD case-insensitively and whose value is a Python integer
(`pyInt`, covering `bool` as Python's `isinstance(value, int)` does), the
resolved children of any operator contain no duplicates when the plan's
operator enumeration has none, and the scan operator of every fragment of a
freshly built plan (no CHILD-keyed scan parameters) has no child ids and an
empty resolved-children set. -/
theorem C5_children_convention :
    (∀ (fields : List (String × JValue)) (i : Int),
      i ∈ MyriaOperator._child_ids (.obj fields)
        ↔ ∃ kv ∈ fields,
            strContains (pyUpper kv.1) "CHILD" = true ∧ pyInt kv.2 = some i) ∧
    (∀ doc op : JValue,
      (MyriaPlan.operators doc).Nodup → (MyriaOperator.children doc op).Nodup) ∧
    (∀ (schema : List (String × JValue)) (work : List (Int × JValue))
       (relation : JValue) (text : String)
       (sp ip : Option (List (String × JValue))) (st it : Option String),
      noChildKey sp →
      ∀ (k : Nat), k < work.length →
      ∃ frag s i,
        (MyriaPlan.fragments (wrapPlan
            (get_parallel_import_plan schema work relation text sp ip st it))).get? k
          = some frag ∧
        MyriaFragment.operators frag = [s, i] ∧
        MyriaOperator._child_ids s = [] ∧
        MyriaOperator.children
            (wrapPlan (get_parallel_import_plan schema work relation text sp ip st it)) s
          = []) := by
  refine ⟨?_, ?_, ?_⟩
  · intro fields i
    show i ∈ fields.filterMap _ ↔ _
    rw [List.mem_filterMap]
    constructor
    · rintro ⟨kv, hm, hf⟩
      by_cases hc : strContains (pyUpper kv.1) "CHILD" = true
      · rw [if_pos hc] at hf
        exact ⟨kv, hm, hc, hf⟩
      · rw [if_neg hc] at hf
        simp at hf
    · rintro ⟨kv, hm, hc, hv⟩
      refine ⟨kv, hm, ?_⟩
      rw [if_pos hc]
      exact hv
  · intro doc op h
    exact List.Nodup.filter _ h
  · intro schema work relation text sp ip st it hsp k hk
    refine ⟨fragVal ⟨schema, relation, st, it, sp, ip⟩ (0 + 2 * (k : Int))
        (work.get ⟨k, hk⟩),
      JValue.obj (scanOf ⟨schema, relation, st, it, sp, ip⟩
        (0 + 2 * (k : Int)) (work.get ⟨k, hk⟩).2),
      JValue.obj (insertOf ⟨schema, relation, st, it, sp, ip⟩
        (0 + 2 * (k : Int))),
      ?_, fragOps_fragVal _ _ _, ?_, ?_⟩
    · rw [view_fragments_plan]
      exact buildList_get? _ work 0 k hk
    · exact child_ids_scanOf _ _ _ hsp
    · unfold MyriaOperator.children
      refine List.filter_eq_nil_iff.mpr (fun o ho => ?_)
      rw [child_ids_scanOf ⟨schema, relation, st, it, sp, ip⟩
        (0 + 2 * (k : Int)) (work.get ⟨k, hk⟩).2 hsp]
      cases hio : MyriaOperator.idInt o with
      | none => simp [hio]
      | some i2 => simp [hio]

/-- Witness for C5 on a one-entry plan: the property characterisation at a
concrete operator, duplicate-freeness, and the scan of fragment 0 having no
children. -/
theorem C5_children_convention_witness :
    ((3 : Int) ∈ MyriaOperator._child_ids
        (.obj [("argChild", JValue.int 3), ("opType", JValue.str "DbInsert")])
      ↔ ∃ kv ∈ [("argChild", JValue.int 3), ("opType", JValue.str "DbInsert")],
          strContains (pyUpper kv.1) "CHILD" = true ∧ pyInt kv.2 = some 3) ∧
    (∃ frag s i,
      (MyriaPlan.fragments (wrapPlan (get_parallel_import_plan []
          [(1, JValue.str "a")] (JValue.str "Rel") "" none none none none))).get? 0
        = some frag ∧
      MyriaFragment.operators frag = [s, i] ∧
      MyriaOperator._child_ids s = [] ∧
      MyriaOperator.children (wrapPlan (get_parallel_import_plan []
          [(1, JValue.str "a")] (JValue.str "Rel") "" none none none none)) s
        = []) :=
  ⟨C5_children_convention.1 [("argChild", JValue.int 3),
      ("opType", JValue.str "DbInsert")] 3,
   C5_children_convention.2.2 [] [(1, JValue.str "a")] (JValue.str "Rel") ""
      none none none none
      (by intro kv h; exact absurd h (List.not_mem_nil kv))
      0 (by decide)⟩

/-- C6 counterexample: on a one-entry work list the insert operator has
`opId = 1` and `argChild = 0`, but (second allocated id) − 2 = 1 − 2 = −1 ≠ 0;
the code computes `taskid - 2` only after the counter has moved past the
insert's id, so the claim's arithmetic is off by one. -/
theorem C6_counterexample :
    (allOps (get_parallel_import_plan [] [(1, JValue.str "s")] (JValue.str "T")
        "" none none none none)).map
        (fun op => (jField op "opId", jField op "argChild"))
      = [(some (JValue.int 0), none),
         (some (JValue.int 1), some (JValue.int 0))] ∧
    (1 : Int) - 2 = -1 ∧ (0 : Int) ≠ -1 :=
  ⟨rfl, by decide, by decide⟩

/-- C6 (amended): for every work entry, the insert operator's `argChild` is
set to the counter value after both allocations minus 2, which equals the
insert's own id minus **1** — the id of the scan operator built immediately
before it in the same fragment. -/
theorem C6_argChild_arithmetic (schema : List (String × JValue))
    (work : List (Int × JValue)) (relation : JValue) (text : String)
    (sp ip : Option (List (String × JValue))) (st it : Option String)
    (hs : noKey sp "opId") (hiA : noKey ip "argChild") (hiO : noKey ip "opId") :
    ∀ (k : Nat), k < work.length →
    ∃ s i,
      (allOps (get_parallel_import_plan schema work relation text sp ip st it)).get?
          (2 * k) = some s ∧
      (allOps (get_parallel_import_plan schema work relation text sp ip st it)).get?
          (2 * k + 1) = some i ∧
      jField i "opId" = some (.int (2 * (k : Int) + 1)) ∧
      jField s "opId" = some (.int (2 * (k : Int))) ∧
      jField i "argChild" = some (.int ((2 * (k : Int) + 1) - 1)) := by
  intro k hk
  refine ⟨JValue.obj (scanOf ⟨schema, relation, st, it, sp, ip⟩
      (0 + 2 * (k : Int)) (work.get ⟨k, hk⟩).2),
    JValue.obj (insertOf ⟨schema, relation, st, it, sp, ip⟩ (0 + 2 * (k : Int))),
    ?_, ?_, ?_, ?_, ?_⟩
  · rw [allOps_plan]
    exact opsFrom_get?_even _ work 0 k hk
  · rw [allOps_plan]
    exact opsFrom_get?_odd _ work 0 k hk
  · rw [jField_obj, insertOf_lookup_opId _ _ hiO]
    have h1 : (0 : Int) + 2 * (k : Int) + 1 = 2 * (k : Int) + 1 := by ring
    rw [h1]
  · rw [jField_obj, scanOf_lookup_opId _ _ _ hs]
    have h1 : (0 : Int) + 2 * (k : Int) = 2 * (k : Int) := by ring
    rw [h1]
  · rw [jField_obj, insertOf_lookup_argChild _ _ hiA]
    have h1 : (0 : Int) + 2 * (k : Int) = 2 * (k : Int) + 1 - 1 := by ring
    rw [h1]

/-- Witness for C6 (amended) on a one-entry work list. -/
theorem C6_argChild_arithmetic_witness :
    ∃ s i,
      (allOps (get_parallel_import_plan [] [(5, JValue.str "d")]
          (JValue.str "T") "" none none none none)).get? 0 = some s ∧
      (allOps (get_parallel_import_plan [] [(5, JValue.str "d")]
          (JValue.str "T") "" none none none none)).get? 1 = some i ∧
      jField i "opId" = some (.int 1) ∧
      jField s "opId" = some (.int 0) ∧
      jField i "argChild" = some (.int (1 - 1)) :=
  C6_argChild_arithmetic [] [(5, JValue.str "d")] (JValue.str "T") ""
    none none none none rfl rfl rfl 0 (by decide)

/-- C7: caller-supplied scan and insert parameters are overlaid last, so any
key they supply — including computed fields such as `opId` and `opType` —
takes the caller's value in the emitted operator; `scan_parameters =
{'opType': 'HdfsScan'}` makes every scan an `HdfsScan`; and no override is
detected or rejected (the builder still emits one fragment per work entry
whatever the parameter dicts contain). -/
theorem C7_parameter_overrides :
    (∀ (schema : List (String × JValue)) (work : List (Int × JValue))
       (relation : JValue) (text : String)
       (sp ip : Option (List (String × JValue))) (st it : Option String)
       (k : Nat), k < work.length →
      ∀ (key : String) (v : JValue), lookupKey (sp.getD []) key = some v →
      ∃ s, (allOps (get_parallel_import_plan schema work relation text
          sp ip st it)).get? (2 * k) = some s ∧
        jField s key = some v) ∧
    (∀ (schema : List (String × JValue)) (work : List (Int × JValue))
       (relation : JValue) (text : String)
       (sp ip : Option (List (String × JValue))) (st it : Option String)
       (k : Nat), k < work.length →
      ∀ (key : String) (v : JValue), lookupKey (ip.getD []) key = some v →
      ∃ i, (allOps (get_parallel_import_plan schema work relation text
          sp ip st it)).get? (2 * k + 1) = some i ∧
        jField i key = some v) ∧
    (∀ (schema : List (String × JValue)) (work : List (Int × JValue))
       (relation : JValue) (text : String)
       (ip : Option (List (String × JValue))) (st it : Option String)
       (k : Nat), k < work.length →
      ∃ s, (allOps (get_parallel_import_plan schema work relation text
          (some [("opType", JValue.str "HdfsScan")]) ip st it)).get? (2 * k)
          = some s ∧
        jField s "opType" = some (JValue.str "HdfsScan")) ∧
    (∀ (schema : List (String × JValue)) (work : List (Int × JValue))
       (relation : JValue) (text : String)
       (sp ip : Option (List (String × JValue))) (st it : Option String),
      (docFragments (get_parallel_import_plan schema work relation text
          sp ip st it)).length = work.length) := by
  refine ⟨?_, ?_, ?_, ?_⟩
  · intro schema work relation text sp ip st it k hk key v hkey
    refine ⟨JValue.obj (scanOf ⟨schema, relation, st, it, sp, ip⟩
        (0 + 2 * (k : Int)) (work.get ⟨k, hk⟩).2), ?_, ?_⟩
    · rw [allOps_plan]
      exact opsFrom_get?_even _ work 0 k hk
    · rw [jField_obj]
      exact scanOf_lookup_override _ _ _ key v hkey
  · intro schema work relation text sp ip st it k hk key v hkey
    refine ⟨JValue.obj (insertOf ⟨schema, relation, st, it, sp, ip⟩
        (0 + 2 * (k : Int))), ?_, ?_⟩
    · rw [allOps_plan]
      exact opsFrom_get?_odd _ work 0 k hk
    · rw [jField_obj]
      exact insertOf_lookup_override _ _ key v hkey
  · intro schema work relation text ip st it k hk
    refine ⟨JValue.obj (scanOf ⟨schema, relation, st, it,
        some [("opType", JValue.str "HdfsScan")], ip⟩
        (0 + 2 * (k : Int)) (work.get ⟨k, hk⟩).2), ?_, ?_⟩
    · rw [allOps_plan]
      exact opsFrom_get?_even _ work 0 k hk
    · rw [jField_obj]
      exact scanOf_lookup_override _ _ _ "opType" _ rfl
  · intro schema work relation text sp ip st it
    rw [docFragments_plan]
    exact buildList_length _ work 0

/-- Witness for C7: a caller override of the computed `opId` lands verbatim in
the emitted scan operator. -/
theorem C7_parameter_overrides_witness :
    ∃ s, (allOps (get_parallel_import_plan [] [(1, JValue.str "a")]
        (JValue.str "R") "" (some [("opId", JValue.int 99)]) none
        none none)).get? 0 = some s ∧
      jField s "opId" = some (JValue.int 99) :=
  C7_parameter_overrides.1 [] [(1, JValue.str "a")] (JValue.str "R") ""
    (some [("opId", JValue.int 99)]) none none none 0 (by decide)
    "opId" (JValue.int 99) rfl

/-- C8: for every work entry `(workerId, dataSource)`, the produced fragment
is exactly `{'overrideWorkers': [workerId], 'operators': [scan, insert]}`,
the scan and insert being the operators built for that entry. -/
theorem C8_fragment_workers_operators (schema : List (String × JValue))
    (work : List (Int × JValue)) (relation : JValue) (text : String)
    (sp ip : Option (List (String × JValue))) (st it : Option String)
    (k : Nat) (hk : k < work.length) :
    (docFragments (get_parallel_import_plan schema work relation text
        sp ip st it)).get? k
      = some (JValue.obj
          [("overrideWorkers", JValue.arr [JValue.int (work.get ⟨k, hk⟩).1]),
           ("operators", JValue.arr
             [JValue.obj (scanOf ⟨schema, relation, st, it, sp, ip⟩
                (2 * (k : Int)) (work.get ⟨k, hk⟩).2),
              JValue.obj (insertOf ⟨schema, relation, st, it, sp, ip⟩
                (2 * (k : Int)))])]) := by
  rw [docFragments_plan, buildList_get? _ work 0 k hk]
  simp only [fragVal]
  have h1 : (0 : Int) + 2 * (k : Int) = 2 * (k : Int) := by ring
  rw [h1]

/-- Witness for C8 at the second fragment of a two-entry work list. -/
theorem C8_fragment_workers_operators_witness :
    (docFragments (get_parallel_import_plan [] [(1, JValue.str "a"),
        (2, JValue.str "b")] (JValue.str "R") "" none none none none)).get? 1
      = some (JValue.obj
          [("overrideWorkers", JValue.arr [JValue.int 2]),
           ("operators", JValue.arr
             [JValue.obj (scanOf ⟨[], JValue.str "R", none, none, none, none⟩ 2
                (JValue.str "b")),
              JValue.obj (insertOf ⟨[], JValue.str "R", none, none, none,
                none⟩ 2)])]) :=
  C8_fragment_workers_operators [] [(1, JValue.str "a"), (2, JValue.str "b")]
    (JValue.str "R") "" none none none none 1 (by decide)

/-- C9: indexed lookup of an absent property key does fail with `KeyError`,
but the claimed recovery is impossible: the membership test calls
`self.value.contains(item)`, and a Python dict has no `contains` method, so
`key in operator` raises `AttributeError` instead of returning `False`. -/
theorem C9_contains_bug :
    MyriaOperator.getitem [("opId", JValue.int 0)] "source"
      = .error (.keyError "source") ∧
    MyriaOperator.containsTest [("opId", JValue.int 0)] "source"
      = .error (.attributeError "contains") :=
  ⟨rfl, rfl⟩

/-- C10: the builder is deterministic and history-independent: the id counter
is the list literal `[0]`, evaluated afresh inside every call, so equal
arguments give equal documents and the operator ids of every produced plan
are exactly `0 … 2N-1` — they always begin at 0, whatever happened before. -/
theorem C10_fresh_counter :
    (∀ (s1 s2 : List (String × JValue)) (w1 w2 : List (Int × JValue))
       (r1 r2 : JValue) (t1 t2 : String)
       (sp1 sp2 ip1 ip2 : Option (List (String × JValue)))
       (st1 st2 it1 it2 : Option String),
      s1 = s2 → w1 = w2 → r1 = r2 → t1 = t2 → sp1 = sp2 → ip1 = ip2 →
      st1 = st2 → it1 = it2 →
      get_parallel_import_plan s1 w1 r1 t1 sp1 ip1 st1 it1
        = get_parallel_import_plan s2 w2 r2 t2 sp2 ip2 st2 it2) ∧
    (∀ (schema : List (String × JValue)) (work : List (Int × JValue))
       (relation : JValue) (text : String)
       (sp ip : Option (List (String × JValue))) (st it : Option String),
      noKey sp "opId" → noKey ip "opId" →
      (allOps (get_parallel_import_plan schema work relation text
          sp ip st it)).map MyriaOperator.idInt
        = (intRange 0 (2 * work.length)).map some) := by
  constructor
  · intro s1 s2 w1 w2 r1 r2 t1 t2 sp1 sp2 ip1 ip2 st1 st2 it1 it2
      h1 h2 h3 h4 h5 h6 h7 h8
    subst h1; subst h2; subst h3; subst h4
    subst h5; subst h6; subst h7; subst h8
    rfl
  · intro schema work relation text sp ip st it hs hi
    rw [allOps_plan]
    exact opsFrom_ids _ work hs hi 0

/-- Witness for C10: two equal calls coincide, and a fresh call's ids start
at 0. -/
theorem C10_fresh_counter_witness :
    get_parallel_import_plan [] [(3, JValue.str "x")] (JValue.str "R") ""
        none none none none
      = get_parallel_import_plan [] [(3, JValue.str "x")] (JValue.str "R") ""
        none none none none ∧
    (allOps (get_parallel_import_plan [] [(3, JValue.str "x")] (JValue.str "R")
        "" none none none none)).map MyriaOperator.idInt
      = [some 0, some 1] :=
  ⟨C10_fresh_counter.1 [] [] [(3, JValue.str "x")] [(3, JValue.str "x")]
      (JValue.str "R") (JValue.str "R") "" "" none none none none
      none none none none rfl rfl rfl rfl rfl rfl rfl rfl,
   C10_fresh_counter.2 [] [(3, JValue.str "x")] (JValue.str "R") ""
      none none none none rfl rfl⟩
